import Mathlib

/-!
# Streaming decompression layer of edge-containers

A shallow embedding of `pkg/store/decompressstore.go` (the media-type dispatcher
`DecompressStore.Writer`, the tag parser `checkCompression`, and the two decode
procedures handed to `NewPassthroughWriter` by `NewUntarWriter` and
`NewGunzipWriter`) and of `containerdReader.Read` from
`pkg/resolver/containerd.go`, together with the properties established for them.
-/

namespace EdgeContainers

/-! ## Strings and media-type tags -/

/-- A Go `string` is a finite sequence of bytes; a byte is written here as the
character with that code point, so that string literals stay readable. -/
abbrev GoString := List Char

/-- Go `strings.HasSuffix(s, suffix)`:
`len(s) >= len(suffix) && s[len(s)-len(suffix):] == suffix`. -/
def HasSuffix (s suffix : GoString) : Bool :=
  decide (suffix.length ≤ s.length) && (s.drop (s.length - suffix.length) == suffix)

/-- Go slice expression `s[:hi]`. It is a run-time fault (`none`) unless
`0 ≤ hi ≤ len(s)`. -/
def sliceTo (s : GoString) (hi : Int) : Option GoString :=
  if 0 ≤ hi ∧ hi ≤ (s.length : Int) then some (s.take hi.toNat) else none

/-- Go `checkCompression(mediaType) (gzip, tar bool)`. The result is `none` when
the slice expression faults, and otherwise the pair `(gzip, tar)` in the order
of the Go result list. -/
def checkCompression (mediaType : GoString) : Option (Bool × Bool) :=
  let gzipSuffix : GoString := "+gzip".toList
  let stripped : Option (GoString × Bool) :=
    if HasSuffix mediaType gzipSuffix then
      (sliceTo mediaType ((mediaType.length : Int) - (gzipSuffix.length : Int))).map
        (fun mt => (mt, true))
    else
      some (mediaType, false)
  stripped.map (fun r => (r.2, HasSuffix r.1 ".tar".toList))

/-! ## Descriptors, writer options and writers -/

/-- A byte of payload data. Bytes are only copied and compared, never computed with. -/
abbrev Byte := Nat

/-- A non-nil Go `error` value; a Go `error` is an `Option GoError`, with `nil` as `none`. -/
inductive GoError where
  | EOF
  | other (code : Nat)
deriving DecidableEq, Repr

/-- Outcome of a Go call with result list `(T, error)` that may also fault at run time. -/
inductive Outcome (α : Type) where
  | ok (a : α)
  | error (e : GoError)
  | fault
deriving DecidableEq, Repr

/-- The `ocispec.Descriptor` fields. -/
structure Descriptor where
  MediaType : GoString
  Digest : GoString
  Size : Int
  Annotations : List (GoString × GoString)
deriving DecidableEq, Repr

/-- The `content.WriterOpts` record. -/
structure WriterOpts where
  Ref : GoString
  Desc : Descriptor
deriving DecidableEq, Repr

/-- The zero value of `content.WriterOpts` (`var wOpts content.WriterOpts`). -/
def WriterOpts.zero : WriterOpts :=
  { Ref := [], Desc := { MediaType := [], Digest := [], Size := 0, Annotations := [] } }

/-- A `content.WriterOpt`: a function run on a pointer to the options that may
return an error. -/
abbrev WriterOpt := WriterOpts → Except GoError WriterOpts

/-- The containerd option `content.WithDescriptor(desc)`. -/
def WithDescriptor (desc : Descriptor) : WriterOpt :=
  fun o => Except.ok { o with Desc := desc }

/-- The containerd option `content.WithRef(ref)`. -/
def WithRef (ref : GoString) : WriterOpt :=
  fun o => Except.ok { o with Ref := ref }

/-- The loop `for _, opt := range opts { if err := opt(&wOpts); err != nil { return nil, err } }`. -/
def applyOpts : List WriterOpt → WriterOpts → Except GoError WriterOpts
  | [], o => Except.ok o
  | opt :: rest, o =>
    match opt o with
    | Except.error err => Except.error err
    | Except.ok o1 => applyOpts rest o1

/-- The two decode procedures that can be bound into a passthrough writer. -/
inductive Decode where
  | untar
  | gunzip
deriving DecidableEq, Repr

/-- A `content.Writer` as seen by the dispatcher: either a writer handed out by
an external store (values of `W`), or a `PassthroughWriter` around another writer
with a decode procedure bound to it. -/
inductive Writer (W : Type) where
  | external (w : W)
  | passthrough (underlying : Writer W) (f : Decode)
deriving DecidableEq, Repr

/-- Go `NewUntarWriter(writer)`: `NewPassthroughWriter(writer, <untar procedure>)`. -/
def NewUntarWriter {W : Type} (writer : Writer W) : Writer W :=
  Writer.passthrough writer Decode.untar

/-- Go `NewGunzipWriter(writer)`: `NewPassthroughWriter(writer, <gunzip procedure>)`. -/
def NewGunzipWriter {W : Type} (writer : Writer W) : Writer W :=
  Writer.passthrough writer Decode.gunzip

/-- The decode procedures around a writer, outermost first. -/
def Writer.decoders {W : Type} : Writer W → List Decode
  | Writer.external _ => []
  | Writer.passthrough u f => f :: u.decoders

/-- The external writer at the bottom of a chain. -/
def Writer.sink {W : Type} : Writer W → W
  | Writer.external w => w
  | Writer.passthrough u _ => u.sink

/-- Whether some Gunzip wrapper sits inside (downstream of) an Untar wrapper. -/
def Writer.gunzipInsideUntar {W : Type} : Writer W → Bool
  | Writer.external _ => false
  | Writer.passthrough u Decode.untar => u.decoders.contains Decode.gunzip || u.gunzipInsideUntar
  | Writer.passthrough u Decode.gunzip => u.gunzipInsideUntar

/-- The `Writer` method of a store (`content.Ingester`, or the oras
`Memorystore`): given the options it returns a writer or an error. -/
abbrev Ingester (W : Type) := List WriterOpt → Except GoError W

/-- Go `DecompressStore`. A nil `ingester` interface value is `none`. -/
structure DecompressStore (W : Type) where
  ingester : Option (Ingester W)
  cache : Ingester W

def MimeTypeDockerImageManifest : GoString :=
  "application/vnd.docker.distribution.manifest.v2+json".toList

/-- The constant `ocispec.MediaTypeImageManifest`. -/
def MediaTypeImageManifest : GoString := "application/vnd.oci.image.manifest.v1+json".toList

/-- The constant `ocispec.MediaTypeImageIndex`. -/
def MediaTypeImageIndex : GoString := "application/vnd.oci.image.index.v1+json".toList

/-- Go `isAllowedMediaType(mediaType, allowedMediaTypes...)`. -/
def isAllowedMediaType (mediaType : GoString) (allowedMediaTypes : List GoString) : Bool :=
  if allowedMediaTypes.length = 0 then true
  else allowedMediaTypes.any (fun allowedMediaType => mediaType == allowedMediaType)

/-- The media types that `DecompressStore.Writer` hands to the bypass cache. -/
def bypassMediaTypes : List GoString :=
  [MediaTypeImageManifest, MediaTypeImageIndex, MimeTypeDockerImageManifest]

/-- Go `DecompressStore.Writer(ctx, opts...)`, statement by statement: the
ingester is asked for a writer first (a method call on a nil interface value is a
run-time fault), then the options are replayed to find the descriptor, then the
bypass test is made, and otherwise the writer is wrapped. -/
def DecompressStore.Writer {W : Type} (d : DecompressStore W) (opts : List WriterOpt) :
    Outcome (Writer W) :=
  match d.ingester with
  | none => Outcome.fault
  | some ingester =>
    match ingester opts with
    | Except.error err => Outcome.error err
    | Except.ok w =>
      let writer := Writer.external w
      match applyOpts opts WriterOpts.zero with
      | Except.error err => Outcome.error err
      | Except.ok wOpts =>
        if isAllowedMediaType wOpts.Desc.MediaType bypassMediaTypes || d.ingester.isNone then
          match d.cache opts with
          | Except.error err => Outcome.error err
          | Except.ok c => Outcome.ok (Writer.external c)
        else
          let desc := wOpts.Desc
          match checkCompression desc.MediaType with
          | none => Outcome.fault
          | some (hasGzip, hasTar) =>
            let writer := if hasTar then NewUntarWriter writer else writer
            let writer := if hasGzip then NewGunzipWriter writer else writer
            Outcome.ok writer

/-! ## The decode procedures -/

/-- Constant `Blocksize`: the size of the buffer allocated for each read. -/
def Blocksize : Nat := 10240

/-- What a `Read(b)` or `ReadAt(b, off)` call leaves behind: the count `n`, the
error, and the contents of the buffer `b` after the call. -/
structure ReadResult where
  n : Nat
  err : Option GoError
  buf : List Byte
deriving DecidableEq, Repr

/-- Behaviour of a `*gzip.Reader`: each `Read(b)` answers from the current state
and moves to the next one. -/
structure GzipReader (σ : Type) where
  Read : σ → List Byte → ReadResult × σ

/-- Behaviour of a `*tar.Reader`: `Next()` (the header is discarded by the
caller, only the error is kept) and `Read(b)`. -/
structure TarReader (σ : Type) where
  Next : σ → Option GoError × σ
  Read : σ → List Byte → ReadResult × σ

/-- Behaviour of the downstream sink behind `pw.UnderlyingWrite(p)`. -/
structure Downstream (τ : Type) where
  UnderlyingWrite : τ → List Byte → Option GoError × τ

/-- Observable actions of a decode procedure, each with the result it got. -/
inductive Event where
  | next (err : Option GoError)
  | read (n : Nat) (err : Option GoError)
  | write (p : List Byte) (err : Option GoError)
  | log
  | close
  | done
deriving DecidableEq, Repr

/-- A run of a decode procedure: the actions performed, and whether the
procedure returned within the iterations it was allowed. -/
structure Run where
  trace : List Event
  returned : Bool
deriving DecidableEq, Repr

/-- The loop of `NewGunzipWriter` (lines 135-153), for at most `fuel`
iterations. The second component is the state in which the loop was left, or
`none` when the iterations ran out. -/
def gunzipLoop {σ τ : Type} (gr : GzipReader σ) (pw : Downstream τ) :
    Nat → σ → τ → List Event × Option (σ × τ)
  | 0, _, _ => ([], none)
  | fuel + 1, s, t =>
    let b : List Byte := List.replicate Blocksize 0
    let (r, s1) := gr.Read s b
    if r.err ≠ none ∧ r.err ≠ some GoError.EOF then
      let (evs, fin) := gunzipLoop gr pw fuel s1 t
      (Event.read r.n r.err :: Event.log :: evs, fin)
    else
      let l := if r.n > b.length then b.length else r.n
      let p := r.buf.take l
      let (werr, t1) := pw.UnderlyingWrite t p
      if werr ≠ none then
        ([Event.read r.n r.err, Event.write p werr, Event.log], some (s1, t1))
      else if r.err = some GoError.EOF then
        ([Event.read r.n r.err, Event.write p werr], some (s1, t1))
      else
        let (evs, fin) := gunzipLoop gr pw fuel s1 t1
        (Event.read r.n r.err :: Event.write p werr :: evs, fin)

/-- The decode procedure bound by `NewGunzipWriter`. `opened` is the result of
`gzip.NewReader(pw.Reader)`: the reader's initial state, or the header error. -/
def gunzipProc {σ τ : Type} (gr : GzipReader σ) (pw : Downstream τ) (fuel : Nat)
    (opened : Except GoError σ) (t : τ) : Run :=
  match opened with
  | Except.error _ => { trace := [Event.log], returned := true }
  | Except.ok s =>
    match gunzipLoop gr pw fuel s t with
    | (evs, some _) => { trace := evs ++ [Event.close, Event.done], returned := true }
    | (evs, none) => { trace := evs, returned := false }

/-- The inner loop of `NewUntarWriter` (lines 102-120) that forwards one entry. -/
def untarEntryLoop {σ τ : Type} (tr : TarReader σ) (pw : Downstream τ) :
    Nat → σ → τ → List Event × Option (σ × τ)
  | 0, _, _ => ([], none)
  | fuel + 1, s, t =>
    let b : List Byte := List.replicate Blocksize 0
    let (r, s1) := tr.Read s b
    if r.err ≠ none ∧ r.err ≠ some GoError.EOF then
      let (evs, fin) := untarEntryLoop tr pw fuel s1 t
      (Event.read r.n r.err :: Event.log :: evs, fin)
    else
      let l := if r.n > b.length then b.length else r.n
      let p := r.buf.take l
      let (werr, t1) := pw.UnderlyingWrite t p
      if werr ≠ none then
        ([Event.read r.n r.err, Event.write p werr, Event.log], some (s1, t1))
      else if r.err = some GoError.EOF then
        ([Event.read r.n r.err, Event.write p werr], some (s1, t1))
      else
        let (evs, fin) := untarEntryLoop tr pw fuel s1 t1
        (Event.read r.n r.err :: Event.write p werr :: evs, fin)

/-- The outer loop of `NewUntarWriter` (lines 92-121) over the archive entries. -/
def untarLoop {σ τ : Type} (tr : TarReader σ) (pw : Downstream τ) :
    Nat → σ → τ → List Event × Option (σ × τ)
  | 0, _, _ => ([], none)
  | fuel + 1, s, t =>
    let (err, s1) := tr.Next s
    if err = some GoError.EOF then
      ([Event.next err], some (s1, t))
    else if err ≠ none then
      let (evs, fin) := untarLoop tr pw fuel s1 t
      (Event.next err :: Event.log :: evs, fin)
    else
      match untarEntryLoop tr pw fuel s1 t with
      | (body, none) => (Event.next err :: body, none)
      | (body, some (s2, t2)) =>
        let (evs, fin) := untarLoop tr pw fuel s2 t2
        (Event.next err :: (body ++ evs), fin)

/-- The decode procedure bound by `NewUntarWriter`; `s` is the state of
`tar.NewReader(pw.Reader)`. -/
def untarProc {σ τ : Type} (tr : TarReader σ) (pw : Downstream τ) (fuel : Nat)
    (s : σ) (t : τ) : Run :=
  match untarLoop tr pw fuel s t with
  | (evs, some _) => { trace := evs ++ [Event.done], returned := true }
  | (evs, none) => { trace := evs, returned := false }

/-- The byte slices passed to the downstream write, in call order. -/
def writes : List Event → List (List Byte)
  | [] => []
  | Event.write p _ :: rest => p :: writes rest
  | _ :: rest => writes rest

/-- All bytes passed downstream, in call order. -/
def forwarded (evs : List Event) : List Byte := (writes evs).flatten

/-- Number of completion signals (`pw.Done <- true`) in a trace. -/
def doneCount (evs : List Event) : Nat := evs.count Event.done

/-- Number of read attempts (`Read` or `Next` calls) in a trace. -/
def readAttempts : List Event → Nat
  | [] => 0
  | Event.read _ _ :: rest => readAttempts rest + 1
  | Event.next _ :: rest => readAttempts rest + 1
  | _ :: rest => readAttempts rest

/-- The events that follow the first failed downstream write. -/
def afterFailedWrite : List Event → List Event
  | [] => []
  | Event.write _ (some _) :: rest => rest
  | _ :: rest => afterFailedWrite rest

/-! ## Reader and sink behaviours used to exercise the procedures -/

/-- One read as delivered by a decoder: the bytes it puts in the buffer and
the error it returns with them. -/
structure Step where
  data : List Byte
  err : Option GoError
deriving DecidableEq, Repr

/-- Go `copy(b, data)`: the buffer after the copy. -/
def copyInto (b data : List Byte) : List Byte :=
  data.take b.length ++ b.drop data.length

/-- A read that follows a prescribed list of steps; once the list is used up
it keeps answering `(0, io.EOF)`. -/
def scriptRead : List Step → List Byte → ReadResult × List Step
  | [], b => ({ n := 0, err := some GoError.EOF, buf := b }, [])
  | st :: rest, b => ({ n := st.data.length, err := st.err, buf := copyInto b st.data }, rest)

/-- A gzip decoder that delivers a prescribed list of reads. -/
def scriptGzip : GzipReader (List Step) := { Read := scriptRead }

/-- A tar reader over an archive given by its entries, each entry being the
list of reads that deliver its body. `Next` moves to the following entry and
reports `io.EOF` after the last one. -/
def scriptTar : TarReader (List Step × List (List Step)) where
  Next := fun st =>
    match st.2 with
    | [] => (some GoError.EOF, ([], []))
    | e :: es => (none, (e, es))
  Read := fun st b => ((scriptRead st.1 b).1, ((scriptRead st.1 b).2, st.2))

/-- The reads deliver a body: every read is at most `Blocksize` bytes, all reads
but the last return no error, and the last returns `io.EOF`. -/
def deliversBody : List Step → Bool
  | [] => false
  | [st] => decide (st.err = some GoError.EOF) && decide (st.data.length ≤ Blocksize)
  | st :: rest => decide (st.err = none) && decide (st.data.length ≤ Blocksize) && deliversBody rest

/-- The body delivered by a list of reads. -/
def bodyOf (steps : List Step) : List Byte := (steps.map Step.data).flatten

/-- A decoder that answers every call with the same error and no data. -/
def stuckGzip (e : GoError) : GzipReader Unit :=
  { Read := fun _ b => ({ n := 0, err := some e, buf := b }, ()) }

/-- A tar reader whose every `Next` and `Read` call returns the same error. -/
def stuckTar (e : GoError) : TarReader Unit :=
  { Next := fun _ => (some e, ()), Read := fun _ b => ({ n := 0, err := some e, buf := b }, ()) }

/-- A sink that accepts every write. -/
def acceptAll : Downstream Unit := { UnderlyingWrite := fun _ _ => (none, ()) }

/-- A sink that rejects its first write and accepts the later ones; the state
counts the writes seen. -/
def rejectFirst (e : GoError) : Downstream Nat :=
  { UnderlyingWrite := fun k _ => (if k = 0 then some e else none, k + 1) }

/-! ## The containerd reader -/

/-- Go conversion to `int64` and `int64` addition wrap around at 64 bits. -/
def wrapInt64 (x : Int) : Int := (x + 2 ^ 63) % 2 ^ 64 - 2 ^ 63

/-- Go `containerdReader`: `reader` is the `ReadAt(p, off)` method of the
wrapped `content.ReaderAt`. -/
structure containerdReader where
  reader : List Byte → Int → ReadResult
  offset : Int

/-- The statements of `containerdReader.Read` run on the receiver variable `c`:
the returned `(n, err)` with the filled buffer, and the final value of `c`. -/
def containerdReader.ReadBody (c : containerdReader) (p : List Byte) :
    ReadResult × containerdReader :=
  let r := c.reader p c.offset
  (r, { c with offset := wrapInt64 (c.offset + wrapInt64 (r.n : Int)) })

/-- A call of `containerdReader.Read`. The method has a value receiver, so its
body runs on a copy of the reader; the caller keeps the reader it had. -/
def containerdReader.Read (c : containerdReader) (p : List Byte) :
    ReadResult × containerdReader :=
  ((c.ReadBody p).1, c)

/-- Go `containerdFetcher.Fetch`: `readerAt` is the content store's `ReaderAt`
lookup for the descriptor. -/
def containerdFetcher.Fetch (readerAt : Descriptor → Except GoError (List Byte → Int → ReadResult))
    (desc : Descriptor) : Except GoError containerdReader :=
  match readerAt desc with
  | Except.error err => Except.error err
  | Except.ok reader => Except.ok { reader := reader, offset := 0 }

/-- A `content.ReaderAt` over a blob: `ReadAt(p, off)` copies the bytes from
`off` on into `p` and reports `io.EOF` when it cannot fill `p`. -/
def blobReadAt (blob : List Byte) (p : List Byte) (off : Int) : ReadResult :=
  let data := (blob.drop off.toNat).take p.length
  { n := data.length,
    err := if data.length < p.length then some GoError.EOF else none,
    buf := copyInto p data }

/-- Successive `Read` calls with buffers of the given sizes on the reader held
by the caller: the bytes each call returned (`p[:n]`). -/
def readSeq : containerdReader → List Nat → List (List Byte)
  | _, [] => []
  | c, size :: rest =>
    let res := c.Read (List.replicate size 0)
    (res.1.buf.take res.1.n) :: readSeq res.2 rest

/-- Successive `Read` calls: the offset each call passed to `ReadAt`. -/
def readOffsets : containerdReader → List Nat → List Int
  | _, [] => []
  | c, size :: rest => c.offset :: readOffsets (c.Read (List.replicate size 0)).2 rest

/-- A tar reader whose `Next` always succeeds and whose every `Read` returns
the same error. -/
def stuckBodyTar (e : GoError) : TarReader Unit :=
  { Next := fun _ => (none, ()), Read := fun _ b => ({ n := 0, err := some e, buf := b }, ()) }

/-- Reads needed to go through a whole archive: one `Next` per entry and a
final one, plus the reads of every body. -/
def archiveSize : List (List Step) → Nat
  | [] => 1
  | e :: es => 1 + e.length + archiveSize es

/-! ## Concrete stores and descriptors -/

/-- A layer descriptor with a ".tar+gzip" media type. -/
def layerDesc : Descriptor :=
  { MediaType := "application/vnd.oci.image.layer.v1.tar+gzip".toList,
    Digest := "sha256:aa".toList, Size := 10, Annotations := [] }

/-- A descriptor of an OCI image manifest. -/
def manifestDesc : Descriptor :=
  { MediaType := MediaTypeImageManifest, Digest := "sha256:bb".toList, Size := 3,
    Annotations := [] }

/-- An ingester whose `Writer` always succeeds, with the external writer 7. -/
def fileStore : Ingester Nat := fun _ => Except.ok 7

/-- An ingester whose `Writer` always returns the error `e`. -/
def failingStore (e : GoError) : Ingester Nat := fun _ => Except.error e

/-- A bypass cache whose `Writer` always succeeds, with the external writer 0. -/
def memoryStore : Ingester Nat := fun _ => Except.ok 0

/-! ## Facts about suffix tests -/

theorem HasSuffix_iff (s suffix : GoString) :
    HasSuffix s suffix = true ↔ suffix <:+ s := by
  unfold HasSuffix
  constructor
  · intro h
    simp only [Bool.and_eq_true, decide_eq_true_eq, beq_iff_eq] at h
    have e := List.take_append_drop (s.length - suffix.length) s
    rw [h.2] at e
    exact ⟨_, e⟩
  · rintro ⟨t, rfl⟩
    simp

theorem HasSuffix_append (p suffix : GoString) : HasSuffix (p ++ suffix) suffix = true :=
  (HasSuffix_iff _ _).2 ⟨p, rfl⟩

theorem sliceTo_append (p suffix : GoString) :
    sliceTo (p ++ suffix) (((p ++ suffix).length : Int) - (suffix.length : Int)) = some p := by
  unfold sliceTo
  have h : (((p ++ suffix).length : Int) - (suffix.length : Int)) = (p.length : Int) := by
    simp
  rw [h]
  simp

theorem checkCompression_gzip (p : GoString) :
    checkCompression (p ++ "+gzip".toList) = some (true, HasSuffix p ".tar".toList) := by
  unfold checkCompression
  simp only [HasSuffix_append, if_true, sliceTo_append, Option.map_some']

theorem checkCompression_plain (mt : GoString) (h : HasSuffix mt "+gzip".toList = false) :
    checkCompression mt = some (false, HasSuffix mt ".tar".toList) := by
  unfold checkCompression
  simp only [h, Bool.false_eq_true, if_false, Option.map_some']

theorem not_gzip_suffix_of_tar (x : GoString) :
    HasSuffix (x ++ ".tar".toList) "+gzip".toList = false := by
  rw [Bool.eq_false_iff]
  intro h
  obtain ⟨t, ht⟩ := (HasSuffix_iff _ _).1 h
  have e := congrArg List.getLast? ht
  simp at e

theorem HasSuffix_false_iff (s suffix : GoString) :
    HasSuffix s suffix = false ↔ ¬ suffix <:+ s := by
  rw [← HasSuffix_iff, Bool.not_eq_true]

/-- C1: `checkCompression` returns a pair for every string (the slice never
faults); `gzip` is true exactly when the tag ends with "+gzip", and `tar` is
true exactly when the tag with one trailing "+gzip" removed (if present) ends
with ".tar". For a base `x` ending with neither suffix, the four composed tags
give the four expected pairs (listed in the Go order `(gzip, tar)`). -/
theorem checkCompression_total_exact (mt : GoString) :
    (∃ gzip tar, checkCompression mt = some (gzip, tar) ∧
      (gzip = true ↔ "+gzip".toList <:+ mt) ∧
      (tar = true ↔ ∃ core : GoString,
        (mt = core ++ "+gzip".toList ∨ (¬ "+gzip".toList <:+ mt ∧ core = mt)) ∧
        ".tar".toList <:+ core)) ∧
    (∀ x : GoString, ¬ ".tar".toList <:+ x → ¬ "+gzip".toList <:+ x →
      checkCompression (x ++ ".tar+gzip".toList) = some (true, true) ∧
      checkCompression (x ++ ".tar".toList) = some (false, true) ∧
      checkCompression (x ++ "+gzip".toList) = some (true, false) ∧
      checkCompression x = some (false, false)) := by
  constructor
  · cases hg : HasSuffix mt "+gzip".toList
    · have hns : ¬ "+gzip".toList <:+ mt := (HasSuffix_false_iff _ _).1 hg
      refine ⟨false, HasSuffix mt ".tar".toList, checkCompression_plain mt hg, ?_, ?_⟩
      · exact ⟨fun h => absurd h Bool.false_ne_true, fun h => absurd h hns⟩
      · rw [HasSuffix_iff]
        constructor
        · intro h
          exact ⟨mt, Or.inr ⟨hns, rfl⟩, h⟩
        · rintro ⟨core, hc | ⟨_, hc⟩, h⟩
          · exact absurd ⟨core, hc.symm⟩ hns
          · rw [← hc]; exact h
    · obtain ⟨p, hp⟩ := (HasSuffix_iff _ _).1 hg
      subst hp
      refine ⟨true, HasSuffix p ".tar".toList, checkCompression_gzip p, ?_, ?_⟩
      · exact ⟨fun _ => ⟨p, rfl⟩, fun _ => rfl⟩
      · rw [HasSuffix_iff]
        constructor
        · intro h
          exact ⟨p, Or.inl rfl, h⟩
        · rintro ⟨core, hc | ⟨hn, _⟩, h⟩
          · rw [List.append_cancel_right hc]; exact h
          · exact absurd ⟨p, rfl⟩ hn
  · intro x htar hgz
    have e : x ++ ".tar+gzip".toList = (x ++ ".tar".toList) ++ "+gzip".toList := by
      rw [List.append_assoc]; rfl
    refine ⟨?_, ?_, ?_, ?_⟩
    · rw [e, checkCompression_gzip, HasSuffix_append]
    · rw [checkCompression_plain _ (not_gzip_suffix_of_tar x), HasSuffix_append]
    · rw [checkCompression_gzip, (HasSuffix_false_iff _ _).2 htar]
    · rw [checkCompression_plain _ ((HasSuffix_false_iff _ _).2 hgz),
        (HasSuffix_false_iff _ _).2 htar]

/-- C1, at the tags built on the base "x": the general statement applied to
"x.tar+gzip" together with the four results for the base "x". -/
theorem checkCompression_total_exact_witness :
    checkCompression "x.tar+gzip".toList = some (true, true) ∧
    checkCompression "x.tar".toList = some (false, true) ∧
    checkCompression "x+gzip".toList = some (true, false) ∧
    checkCompression "x".toList = some (false, false) :=
  (checkCompression_total_exact "x.tar+gzip".toList).2 "x".toList (by decide) (by decide)

/-! ## The dispatcher -/

theorem isAllowedMediaType_bypass (mt : GoString) :
    isAllowedMediaType mt bypassMediaTypes = true ↔ mt ∈ bypassMediaTypes := by
  have hlen : bypassMediaTypes.length = 3 := rfl
  unfold isAllowedMediaType
  rw [if_neg (by rw [hlen]; decide), List.any_eq_true]
  constructor
  · rintro ⟨x, hx, he⟩
    rw [beq_iff_eq] at he
    rw [he]
    exact hx
  · intro h
    exact ⟨mt, h, by rw [beq_iff_eq]⟩

/-- The four shapes a tag can have, with the result of `checkCompression` for each. -/
theorem checkCompression_cases (mt : GoString) :
    (".tar+gzip".toList <:+ mt ∧ checkCompression mt = some (true, true)) ∨
    ("+gzip".toList <:+ mt ∧ ¬ ".tar+gzip".toList <:+ mt ∧ ¬ ".tar".toList <:+ mt ∧
      checkCompression mt = some (true, false)) ∨
    (".tar".toList <:+ mt ∧ ¬ "+gzip".toList <:+ mt ∧ ¬ ".tar+gzip".toList <:+ mt ∧
      checkCompression mt = some (false, true)) ∨
    (¬ "+gzip".toList <:+ mt ∧ ¬ ".tar".toList <:+ mt ∧ ¬ ".tar+gzip".toList <:+ mt ∧
      checkCompression mt = some (false, false)) := by
  have hsplit : ".tar+gzip".toList = ".tar".toList ++ "+gzip".toList := rfl
  have hboth : ".tar+gzip".toList <:+ mt → "+gzip".toList <:+ mt := by
    rintro ⟨t, rfl⟩
    exact ⟨t ++ ".tar".toList, by rw [hsplit, List.append_assoc]⟩
  have hexcl : ".tar".toList <:+ mt → ¬ "+gzip".toList <:+ mt := by
    rintro ⟨t, rfl⟩ h
    have := (HasSuffix_iff _ _).2 h
    rw [not_gzip_suffix_of_tar] at this
    exact Bool.false_ne_true this
  by_cases hg : "+gzip".toList <:+ mt
  · obtain ⟨p, rfl⟩ := hg
    have hnt : ¬ ".tar".toList <:+ p ++ "+gzip".toList := fun h => hexcl h ⟨p, rfl⟩
    cases ht : HasSuffix p ".tar".toList
    · right; left
      refine ⟨⟨p, rfl⟩, ?_, hnt, by rw [checkCompression_gzip, ht]⟩
      rintro ⟨t, h⟩
      rw [hsplit, ← List.append_assoc] at h
      have hp := List.append_cancel_right h
      rw [← hp, HasSuffix_append] at ht
      exact Bool.false_ne_true ht.symm
    · left
      obtain ⟨q, rfl⟩ := (HasSuffix_iff _ _).1 ht
      exact ⟨⟨q, by rw [hsplit, List.append_assoc]⟩, by rw [checkCompression_gzip, ht]⟩
  · have hg2 := (HasSuffix_false_iff _ _).2 hg
    right; right
    cases ht : HasSuffix mt ".tar".toList
    · right
      exact ⟨hg, (HasSuffix_false_iff _ _).1 ht, fun h => hg (hboth h),
        by rw [checkCompression_plain _ hg2, ht]⟩
    · left
      exact ⟨(HasSuffix_iff _ _).1 ht, hg, fun h => hg (hboth h),
        by rw [checkCompression_plain _ hg2, ht]⟩

/-- The result of `Writer` on the non-bypass path, in terms of the pair
returned by `checkCompression`. -/
theorem Writer_wrap {W : Type} (d : DecompressStore W) (ingester : Ingester W)
    (opts : List WriterOpt) (wOpts : WriterOpts) (w : W) (g t : Bool)
    (hing : d.ingester = some ingester) (hw : ingester opts = Except.ok w)
    (hopts : applyOpts opts WriterOpts.zero = Except.ok wOpts)
    (hmt : wOpts.Desc.MediaType ∉ bypassMediaTypes)
    (hcc : checkCompression wOpts.Desc.MediaType = some (g, t)) :
    d.Writer opts = Outcome.ok
      (if g then NewGunzipWriter (if t then NewUntarWriter (Writer.external w) else Writer.external w)
        else (if t then NewUntarWriter (Writer.external w) else Writer.external w)) := by
  have hb : isAllowedMediaType wOpts.Desc.MediaType bypassMediaTypes = false := by
    rw [Bool.eq_false_iff, Ne, isAllowedMediaType_bypass]
    exact hmt
  unfold DecompressStore.Writer
  simp only [hing, hw, hopts, hb, hcc, Option.isNone_some, Bool.or_self, Bool.false_eq_true,
    if_false]

/-- C2: on the non-bypass path, with an ingester whose `Writer` succeeds with
`w`, the returned chain is fixed by the media-type tag: Gunzip(Untar(w)) for a
".tar+gzip" tag, Untar(w) for a ".tar" tag, Gunzip(w) for a "+gzip" tag without
".tar" before it, and `w` itself otherwise. No Gunzip wrapper is inside an Untar
wrapper, and any other options carrying the same media type (whatever the
digest, size or annotations) get the same sequence of wrappers. -/
theorem Writer_chain_by_tag {W : Type} (d : DecompressStore W) (ingester : Ingester W)
    (opts : List WriterOpt) (wOpts : WriterOpts) (w : W)
    (hing : d.ingester = some ingester) (hw : ingester opts = Except.ok w)
    (hopts : applyOpts opts WriterOpts.zero = Except.ok wOpts)
    (hmt : wOpts.Desc.MediaType ∉ bypassMediaTypes) :
    (".tar+gzip".toList <:+ wOpts.Desc.MediaType →
      d.Writer opts = Outcome.ok (NewGunzipWriter (NewUntarWriter (Writer.external w)))) ∧
    (".tar".toList <:+ wOpts.Desc.MediaType →
      d.Writer opts = Outcome.ok (NewUntarWriter (Writer.external w))) ∧
    ("+gzip".toList <:+ wOpts.Desc.MediaType → ¬ ".tar+gzip".toList <:+ wOpts.Desc.MediaType →
      d.Writer opts = Outcome.ok (NewGunzipWriter (Writer.external w))) ∧
    (¬ "+gzip".toList <:+ wOpts.Desc.MediaType → ¬ ".tar".toList <:+ wOpts.Desc.MediaType →
      d.Writer opts = Outcome.ok (Writer.external w)) ∧
    (∃ out, d.Writer opts = Outcome.ok out ∧ out.sink = w ∧ out.gunzipInsideUntar = false ∧
      ∀ (opts2 : List WriterOpt) (wOpts2 : WriterOpts) (w2 : W),
        ingester opts2 = Except.ok w2 →
        applyOpts opts2 WriterOpts.zero = Except.ok wOpts2 →
        wOpts2.Desc.MediaType = wOpts.Desc.MediaType →
        ∃ out2, d.Writer opts2 = Outcome.ok out2 ∧ out2.sink = w2 ∧
          out2.decoders = out.decoders) := by
  have second : ∀ (g t : Bool), checkCompression wOpts.Desc.MediaType = some (g, t) →
      ∀ (opts2 : List WriterOpt) (wOpts2 : WriterOpts) (w2 : W),
        ingester opts2 = Except.ok w2 →
        applyOpts opts2 WriterOpts.zero = Except.ok wOpts2 →
        wOpts2.Desc.MediaType = wOpts.Desc.MediaType →
        d.Writer opts2 = Outcome.ok
          (if g then NewGunzipWriter
              (if t then NewUntarWriter (Writer.external w2) else Writer.external w2)
            else (if t then NewUntarWriter (Writer.external w2) else Writer.external w2)) := by
    intro g t hcc opts2 wOpts2 w2 h1 h2 h3
    exact Writer_wrap d ingester opts2 wOpts2 w2 g t hing h1 h2 (by rw [h3]; exact hmt)
      (by rw [h3]; exact hcc)
  rcases checkCompression_cases wOpts.Desc.MediaType with
    ⟨ha, hcc⟩ | ⟨hg, hna, hnt, hcc⟩ | ⟨ht, hng, hna, hcc⟩ | ⟨hng, hnt, hna, hcc⟩
  · have hW := Writer_wrap d ingester opts wOpts w true true hing hw hopts hmt hcc
    have hg : "+gzip".toList <:+ wOpts.Desc.MediaType := by
      obtain ⟨t, ht⟩ := ha
      exact ⟨t ++ ".tar".toList, by rw [← ht, List.append_assoc]; rfl⟩
    have hnt : ¬ ".tar".toList <:+ wOpts.Desc.MediaType := by
      rintro ⟨t, ht⟩
      have h := (HasSuffix_iff _ _).2 hg
      rw [← ht, not_gzip_suffix_of_tar] at h
      exact Bool.false_ne_true h
    refine ⟨fun _ => hW, fun h => absurd h hnt, fun _ h => absurd ha h, fun h _ => absurd hg h,
      _, hW, rfl, rfl, ?_⟩
    intro opts2 wOpts2 w2 h1 h2 h3
    exact ⟨_, second true true hcc opts2 wOpts2 w2 h1 h2 h3, rfl, rfl⟩
  · have hW := Writer_wrap d ingester opts wOpts w true false hing hw hopts hmt hcc
    refine ⟨fun h => absurd h hna, fun h => absurd h hnt, fun _ _ => hW, fun h _ => absurd hg h,
      _, hW, rfl, rfl, ?_⟩
    intro opts2 wOpts2 w2 h1 h2 h3
    exact ⟨_, second true false hcc opts2 wOpts2 w2 h1 h2 h3, rfl, rfl⟩
  · have hW := Writer_wrap d ingester opts wOpts w false true hing hw hopts hmt hcc
    refine ⟨fun h => absurd h hna, fun _ => hW, fun h _ => absurd h hng, fun _ h => absurd ht h,
      _, hW, rfl, rfl, ?_⟩
    intro opts2 wOpts2 w2 h1 h2 h3
    exact ⟨_, second false true hcc opts2 wOpts2 w2 h1 h2 h3, rfl, rfl⟩
  · have hW := Writer_wrap d ingester opts wOpts w false false hing hw hopts hmt hcc
    refine ⟨fun h => absurd h hna, fun h => absurd h hnt, fun h _ => absurd h hng, fun _ _ => hW,
      _, hW, rfl, rfl, ?_⟩
    intro opts2 wOpts2 w2 h1 h2 h3
    exact ⟨_, second false false hcc opts2 wOpts2 w2 h1 h2 h3, rfl, rfl⟩

/-- C2 at a concrete store: a ".tar+gzip" layer descriptor gets Gunzip
around Untar around the ingester's writer. -/
theorem Writer_chain_by_tag_witness :
    layerDesc.MediaType ∉ bypassMediaTypes ∧
    ({ ingester := some fileStore, cache := memoryStore } : DecompressStore Nat).Writer
      [WithDescriptor layerDesc]
      = Outcome.ok (NewGunzipWriter (NewUntarWriter (Writer.external 7))) :=
  ⟨by decide,
   (Writer_chain_by_tag { ingester := some fileStore, cache := memoryStore } fileStore
      [WithDescriptor layerDesc] { WriterOpts.zero with Desc := layerDesc } 7 rfl rfl rfl
      (by decide)).1 (by decide)⟩

/-- C3 (failing input): for an image-manifest descriptor and an ingester whose
`Writer` returns an error, `DecompressStore.Writer` returns that error, although
the bypass cache's `Writer` would have returned a sink. -/
theorem Writer_manifest_ingester_error :
    manifestDesc.MediaType ∈ bypassMediaTypes ∧
    memoryStore [WithDescriptor manifestDesc] = Except.ok 0 ∧
    ({ ingester := some (failingStore (GoError.other 1)), cache := memoryStore } :
      DecompressStore Nat).Writer [WithDescriptor manifestDesc]
      = Outcome.error (GoError.other 1) :=
  ⟨by decide, rfl, rfl⟩

/-- C4 (failing input): with a nil ingester, `DecompressStore.Writer` faults
at the call `d.ingester.Writer(ctx, opts...)`, whatever the options and the
bypass cache are. -/
theorem Writer_nil_ingester_faults {W : Type} (cache : Ingester W) (opts : List WriterOpt) :
    ({ ingester := none, cache := cache } : DecompressStore W).Writer opts = Outcome.fault :=
  rfl

/-! ## The decode procedures -/

/-- The slice `b[:l]` taken after a read of at most `Blocksize` bytes into a
fresh buffer is exactly the data read. -/
theorem slice_after_read (data : List Byte) (h : data.length ≤ Blocksize) :
    (copyInto (List.replicate Blocksize 0) data).take
      (if data.length > (List.replicate Blocksize (0 : Byte)).length
        then (List.replicate Blocksize (0 : Byte)).length else data.length) = data := by
  have hl : (List.replicate Blocksize (0 : Byte)).length = Blocksize := List.length_replicate _ _
  rw [hl, if_neg (by omega)]
  unfold copyInto
  rw [hl, List.take_of_length_le h, List.take_left]

theorem forwarded_cons_read (n : Nat) (err : Option GoError) (evs : List Event) :
    forwarded (Event.read n err :: evs) = forwarded evs := rfl

theorem forwarded_cons_next (err : Option GoError) (evs : List Event) :
    forwarded (Event.next err :: evs) = forwarded evs := rfl

theorem forwarded_cons_write (p : List Byte) (err : Option GoError) (evs : List Event) :
    forwarded (Event.write p err :: evs) = p ++ forwarded evs := by
  simp [forwarded, writes]

theorem writes_append (xs ys : List Event) : writes (xs ++ ys) = writes xs ++ writes ys := by
  induction xs with
  | nil => rfl
  | cons x xs ih => cases x <;> simp [writes, ih]

theorem forwarded_append (xs ys : List Event) :
    forwarded (xs ++ ys) = forwarded xs ++ forwarded ys := by
  simp [forwarded, writes_append]

theorem bodyOf_cons (st : Step) (rest : List Step) :
    bodyOf (st :: rest) = st.data ++ bodyOf rest := by
  simp [bodyOf]

/-- The gunzip loop over a decoder that delivers a body, with a sink that
accepts every write: the loop is left within as many iterations as there are
reads, and the forwarded bytes are the body. -/
theorem gunzipLoop_delivers {τ : Type} (pw : Downstream τ)
    (hok : ∀ t p, (pw.UnderlyingWrite t p).1 = none) :
    ∀ (steps : List Step), deliversBody steps = true →
    ∀ (fuel : Nat), steps.length ≤ fuel → ∀ (t : τ),
    ∃ evs fin, gunzipLoop scriptGzip pw fuel steps t = (evs, some fin) ∧
      forwarded evs = bodyOf steps ∧ doneCount evs = 0 := by
  intro steps
  induction steps with
  | nil => intro h; simp [deliversBody] at h
  | cons st rest ih =>
    intro hd fuel hfuel t
    obtain ⟨fuel, rfl⟩ : ∃ k, fuel = k + 1 := ⟨fuel - 1, by simp at hfuel; omega⟩
    cases rest with
    | nil =>
      simp only [deliversBody, Bool.and_eq_true, decide_eq_true_eq] at hd
      obtain ⟨herr, hlen⟩ := hd
      have hs := slice_after_read st.data hlen
      have hw := hok t st.data
      refine ⟨[Event.read st.data.length st.err, Event.write st.data none], ([], (pw.UnderlyingWrite t st.data).2), ?_, ?_, ?_⟩
      · simp only [gunzipLoop, scriptGzip, scriptRead, herr, hs, hw]
        simp
      · simp [forwarded, writes, bodyOf]
      · simp [doneCount]
    | cons st2 rest2 =>
      simp only [deliversBody, Bool.and_eq_true, decide_eq_true_eq] at hd
      obtain ⟨⟨herr, hlen⟩, hrest⟩ := hd
      have hs := slice_after_read st.data hlen
      have hw := hok t st.data
      obtain ⟨evs, fin, hrun, hfw, hdc⟩ := ih hrest fuel (by simp at hfuel ⊢; omega)
        (pw.UnderlyingWrite t st.data).2
      refine ⟨Event.read st.data.length st.err :: Event.write st.data none :: evs, fin, ?_, ?_, ?_⟩
      · simp only [gunzipLoop, scriptGzip, scriptRead, herr, hs, hw]
        simp only [scriptGzip] at hrun
        simp [hrun]
      · rw [forwarded_cons_read, forwarded_cons_write, hfw, bodyOf_cons st]
      · simp [doneCount] at hdc ⊢
        exact hdc

/-- One iteration of the inner untar loop when the read returns no error and
the write is accepted: the loop goes on. -/
theorem untarEntryLoop_step {σ τ : Type} (tr : TarReader σ) (pw : Downstream τ) (fuel : Nat)
    (s : σ) (t : τ) (data : List Byte)
    (herr : (tr.Read s (List.replicate Blocksize 0)).1.err = none)
    (hslice : (tr.Read s (List.replicate Blocksize 0)).1.buf.take
      (if (tr.Read s (List.replicate Blocksize 0)).1.n > (List.replicate Blocksize (0 : Byte)).length
        then (List.replicate Blocksize (0 : Byte)).length
        else (tr.Read s (List.replicate Blocksize 0)).1.n) = data)
    (hw : (pw.UnderlyingWrite t data).1 = none) :
    untarEntryLoop tr pw (fuel + 1) s t =
      (Event.read (tr.Read s (List.replicate Blocksize 0)).1.n none :: Event.write data none ::
          (untarEntryLoop tr pw fuel (tr.Read s (List.replicate Blocksize 0)).2
            (pw.UnderlyingWrite t data).2).1,
        (untarEntryLoop tr pw fuel (tr.Read s (List.replicate Blocksize 0)).2
            (pw.UnderlyingWrite t data).2).2) := by
  rw [untarEntryLoop]
  simp only [herr, hslice, hw]
  simp

/-- One iteration of the inner untar loop when the read returns `io.EOF` and
the write is accepted: the loop is left. -/
theorem untarEntryLoop_last {σ τ : Type} (tr : TarReader σ) (pw : Downstream τ) (fuel : Nat)
    (s : σ) (t : τ) (data : List Byte)
    (herr : (tr.Read s (List.replicate Blocksize 0)).1.err = some GoError.EOF)
    (hslice : (tr.Read s (List.replicate Blocksize 0)).1.buf.take
      (if (tr.Read s (List.replicate Blocksize 0)).1.n > (List.replicate Blocksize (0 : Byte)).length
        then (List.replicate Blocksize (0 : Byte)).length
        else (tr.Read s (List.replicate Blocksize 0)).1.n) = data)
    (hw : (pw.UnderlyingWrite t data).1 = none) :
    untarEntryLoop tr pw (fuel + 1) s t =
      ([Event.read (tr.Read s (List.replicate Blocksize 0)).1.n (some GoError.EOF),
          Event.write data none],
        some ((tr.Read s (List.replicate Blocksize 0)).2, (pw.UnderlyingWrite t data).2)) := by
  rw [untarEntryLoop]
  simp only [herr, hslice, hw]
  simp

/-- The inner untar loop over one entry whose reads deliver a body, with a sink
that accepts every write: the loop is left, the remaining entries are
untouched, and the forwarded bytes are the body. -/
theorem untarEntryLoop_delivers {τ : Type} (pw : Downstream τ)
    (hok : ∀ t p, (pw.UnderlyingWrite t p).1 = none) (others : List (List Step)) :
    ∀ (steps : List Step), deliversBody steps = true →
    ∀ (fuel : Nat), steps.length ≤ fuel → ∀ (t : τ),
    ∃ cur t1, (untarEntryLoop scriptTar pw fuel (steps, others) t).2
        = some ((cur, others), t1) ∧
      forwarded (untarEntryLoop scriptTar pw fuel (steps, others) t).1 = bodyOf steps := by
  intro steps
  induction steps with
  | nil => intro h; simp [deliversBody] at h
  | cons st rest ih =>
    intro hd fuel hfuel t
    obtain ⟨fuel, rfl⟩ : ∃ k, fuel = k + 1 := ⟨fuel - 1, by simp at hfuel; omega⟩
    cases rest with
    | nil =>
      simp only [deliversBody, Bool.and_eq_true, decide_eq_true_eq] at hd
      obtain ⟨herr, hlen⟩ := hd
      rw [untarEntryLoop_last scriptTar pw fuel ([st], others) t st.data herr
        (slice_after_read st.data hlen) (hok t st.data)]
      exact ⟨[], (pw.UnderlyingWrite t st.data).2, rfl, by simp [forwarded, writes, bodyOf]⟩
    | cons st2 rest2 =>
      simp only [deliversBody, Bool.and_eq_true, decide_eq_true_eq] at hd
      obtain ⟨⟨herr, hlen⟩, hrest⟩ := hd
      obtain ⟨cur, t1, hrun, hfw⟩ := ih hrest fuel (by simp at hfuel ⊢; omega)
        (pw.UnderlyingWrite t st.data).2
      rw [untarEntryLoop_step scriptTar pw fuel (st :: st2 :: rest2, others) t st.data herr
        (slice_after_read st.data hlen) (hok t st.data)]
      refine ⟨cur, t1, hrun, ?_⟩
      rw [forwarded_cons_read, forwarded_cons_write, bodyOf_cons st]
      exact congrArg (st.data ++ ·) hfw

/-- The outer untar loop over an archive whose entries all deliver their
bodies, with a sink that accepts every write. -/
theorem untarLoop_delivers {τ : Type} (pw : Downstream τ)
    (hok : ∀ t p, (pw.UnderlyingWrite t p).1 = none) :
    ∀ (entries : List (List Step)), (∀ e ∈ entries, deliversBody e = true) →
    ∀ (fuel : Nat), archiveSize entries ≤ fuel → ∀ (cur : List Step) (t : τ),
    ∃ fin, (untarLoop scriptTar pw fuel (cur, entries) t).2 = some fin ∧
      forwarded (untarLoop scriptTar pw fuel (cur, entries) t).1
        = (entries.map bodyOf).flatten := by
  intro entries
  induction entries with
  | nil =>
    intro _ fuel hfuel cur t
    obtain ⟨fuel, rfl⟩ : ∃ k, fuel = k + 1 := ⟨fuel - 1, by simp [archiveSize] at hfuel; omega⟩
    refine ⟨(([], []), t), ?_, ?_⟩
    · simp [untarLoop, scriptTar]
    · simp [untarLoop, scriptTar, forwarded, writes]
  | cons e es ih =>
    intro hall fuel hfuel cur t
    obtain ⟨fuel, rfl⟩ : ∃ k, fuel = k + 1 := ⟨fuel - 1, by simp [archiveSize] at hfuel; omega⟩
    simp only [archiveSize] at hfuel
    obtain ⟨cur1, t1, hbody, hfb⟩ := untarEntryLoop_delivers pw hok es e
      (hall e (List.mem_cons_self _ _)) fuel (by omega) t
    obtain ⟨fin, hrun, hfw⟩ := ih (fun x hx => hall x (List.mem_cons_of_mem _ hx)) fuel
      (by omega) cur1 t1
    have hnext : scriptTar.Next (cur, e :: es) = (none, (e, es)) := rfl
    have hpair : untarEntryLoop scriptTar pw fuel (e, es) t
        = ((untarEntryLoop scriptTar pw fuel (e, es) t).1, some ((cur1, es), t1)) := by
      rw [← hbody]
    refine ⟨fin, ?_, ?_⟩
    · rw [untarLoop]
      simp only [hnext]
      rw [hpair]
      simp [hrun]
    · rw [untarLoop]
      simp only [hnext]
      rw [hpair]
      simp only [reduceCtorEq, if_false, ne_eq, not_true_eq_false]
      rw [forwarded_cons_next, forwarded_append, hfb, hfw]
      simp

/-- C9: a gzip decoder that delivers the payload `P` as error-free reads of at
most `Blocksize` bytes ending in `io.EOF` (on a last read with or without
data), with a sink that accepts every write: given at least as many iterations
as there are reads, the Gunzip procedure returns and the bytes it passed
downstream, in call order, are exactly `P`. -/
theorem gunzip_forwards_payload {τ : Type} (pw : Downstream τ) (steps : List Step)
    (P : List Byte) (fuel : Nat) (t : τ)
    (hok : ∀ t p, (pw.UnderlyingWrite t p).1 = none)
    (hsteps : deliversBody steps = true) (hP : bodyOf steps = P)
    (hfuel : steps.length ≤ fuel) :
    (gunzipProc scriptGzip pw fuel (Except.ok steps) t).returned = true ∧
    forwarded (gunzipProc scriptGzip pw fuel (Except.ok steps) t).trace = P := by
  obtain ⟨evs, fin, hrun, hfw, _⟩ := gunzipLoop_delivers pw hok steps hsteps fuel hfuel t
  simp only [gunzipProc, hrun]
  refine ⟨trivial, ?_⟩
  rw [forwarded_append, hfw, hP]
  simp [forwarded, writes]

/-- C9 on the payload 1,2,3 delivered as the reads (1,2) and (3 with EOF). -/
theorem gunzip_forwards_payload_witness :
    deliversBody [⟨[1, 2], none⟩, ⟨[3], some GoError.EOF⟩] = true ∧
    (gunzipProc scriptGzip acceptAll 2
      (Except.ok [⟨[1, 2], none⟩, ⟨[3], some GoError.EOF⟩]) ()).returned = true ∧
    forwarded (gunzipProc scriptGzip acceptAll 2
      (Except.ok [⟨[1, 2], none⟩, ⟨[3], some GoError.EOF⟩]) ()).trace = [1, 2, 3] :=
  ⟨by decide,
   gunzip_forwards_payload acceptAll [⟨[1, 2], none⟩, ⟨[3], some GoError.EOF⟩] [1, 2, 3] 2 ()
     (fun _ _ => rfl) (by decide) (by decide) (by decide)⟩

/-- C8 as amended: for a tar archive whose entries are read without error, each
body split into reads of at most `Blocksize` bytes with `io.EOF` on the last
one, and a sink that accepts every write: given enough iterations the Untar
procedure returns and the bytes it passed downstream are the bodies
concatenated in archive order; for a single-entry archive they are exactly
that entry's body. -/
theorem untar_forwards_bodies {τ : Type} (pw : Downstream τ) (entries : List (List Step))
    (fuel : Nat) (t : τ)
    (hok : ∀ t p, (pw.UnderlyingWrite t p).1 = none)
    (hentries : ∀ e ∈ entries, deliversBody e = true)
    (hfuel : archiveSize entries ≤ fuel) :
    (untarProc scriptTar pw fuel ([], entries) t).returned = true ∧
    forwarded (untarProc scriptTar pw fuel ([], entries) t).trace
      = (entries.map bodyOf).flatten ∧
    (∀ steps, entries = [steps] →
      forwarded (untarProc scriptTar pw fuel ([], entries) t).trace = bodyOf steps) := by
  obtain ⟨fin, hrun, hfw⟩ := untarLoop_delivers pw hok entries hentries fuel hfuel [] t
  have hpair : untarLoop scriptTar pw fuel ([], entries) t
      = ((untarLoop scriptTar pw fuel ([], entries) t).1, some fin) := by
    rw [← hrun]
  have hf : forwarded (untarProc scriptTar pw fuel ([], entries) t).trace
      = (entries.map bodyOf).flatten := by
    rw [untarProc, hpair]
    simp only []
    rw [forwarded_append, hfw]
    simp [forwarded, writes]
  refine ⟨by rw [untarProc, hpair], hf, ?_⟩
  intro steps hs
  rw [hf, hs]
  simp

/-- C8 as amended, on an archive of two entries with bodies (1,2) and (3). -/
theorem untar_forwards_bodies_witness :
    (untarProc scriptTar acceptAll 6
      ([], [[⟨[1], none⟩, ⟨[2], some GoError.EOF⟩], [⟨[3], some GoError.EOF⟩]]) ()).returned
      = true ∧
    forwarded (untarProc scriptTar acceptAll 6
      ([], [[⟨[1], none⟩, ⟨[2], some GoError.EOF⟩], [⟨[3], some GoError.EOF⟩]]) ()).trace
      = [1, 2, 3] :=
  ⟨(untar_forwards_bodies acceptAll
      [[⟨[1], none⟩, ⟨[2], some GoError.EOF⟩], [⟨[3], some GoError.EOF⟩]] 6 ()
      (fun _ _ => rfl) (by decide) (by decide)).1,
   (untar_forwards_bodies acceptAll
      [[⟨[1], none⟩, ⟨[2], some GoError.EOF⟩], [⟨[3], some GoError.EOF⟩]] 6 ()
      (fun _ _ => rfl) (by decide) (by decide)).2.1⟩

/-- C8 as stated fails when the sink rejects a write: a single entry with body
(1,2), read without error as (1) and (2 with EOF), and a sink that rejects the
first write. The procedure returns having passed only (1) downstream. -/
theorem untar_rejected_write_truncates :
    deliversBody [⟨[1], none⟩, ⟨[2], some GoError.EOF⟩] = true ∧
    bodyOf [⟨[1], none⟩, ⟨[2], some GoError.EOF⟩] = [1, 2] ∧
    (untarProc scriptTar (rejectFirst (GoError.other 1)) 3
      ([], [[⟨[1], none⟩, ⟨[2], some GoError.EOF⟩]]) 0).returned = true ∧
    forwarded (untarProc scriptTar (rejectFirst (GoError.other 1)) 3
      ([], [[⟨[1], none⟩, ⟨[2], some GoError.EOF⟩]]) 0).trace = [1] ∧
    forwarded (untarProc scriptTar (rejectFirst (GoError.other 1)) 3
      ([], [[⟨[1], none⟩, ⟨[2], some GoError.EOF⟩]]) 0).trace
      ≠ bodyOf [⟨[1], none⟩, ⟨[2], some GoError.EOF⟩] := by
  decide!

/-- C5 (failing input): when `gzip.NewReader` rejects the header, the Gunzip
procedure returns after logging only: nothing is forwarded downstream and no
completion signal is sent. -/
theorem gunzipProc_bad_header_no_done {σ τ : Type} (gr : GzipReader σ) (pw : Downstream τ)
    (fuel : Nat) (e : GoError) (t : τ) :
    (gunzipProc gr pw fuel (Except.error e) t).returned = true ∧
    (gunzipProc gr pw fuel (Except.error e) t).trace = [Event.log] ∧
    forwarded (gunzipProc gr pw fuel (Except.error e) t).trace = [] ∧
    doneCount (gunzipProc gr pw fuel (Except.error e) t).trace = 0 :=
  ⟨rfl, rfl, rfl, by simp [gunzipProc, doneCount]⟩

/-- C6 (failing input): an archive of two entries with bodies (1) and (3) and a
sink that rejects the first write. After the rejected write of (1) the Untar
procedure goes on to the next entry and writes (3) downstream. -/
theorem untar_writes_after_rejected_write :
    (untarProc scriptTar (rejectFirst (GoError.other 1)) 4
      ([], [[⟨[1], some GoError.EOF⟩], [⟨[3], some GoError.EOF⟩]]) 0).returned = true ∧
    (untarProc scriptTar (rejectFirst (GoError.other 1)) 4
      ([], [[⟨[1], some GoError.EOF⟩], [⟨[3], some GoError.EOF⟩]]) 0).trace =
      [Event.next none, Event.read 1 (some GoError.EOF),
       Event.write [1] (some (GoError.other 1)), Event.log,
       Event.next none, Event.read 1 (some GoError.EOF), Event.write [3] none,
       Event.next (some GoError.EOF), Event.done] ∧
    writes (afterFailedWrite (untarProc scriptTar (rejectFirst (GoError.other 1)) 4
      ([], [[⟨[1], some GoError.EOF⟩], [⟨[3], some GoError.EOF⟩]]) 0).trace) = [[3]] := by
  decide!

theorem gunzipLoop_stuck {τ : Type} (pw : Downstream τ) (c : Nat) (t : τ) :
    ∀ fuel : Nat, (gunzipLoop (stuckGzip (GoError.other c)) pw fuel () t).2 = none ∧
      readAttempts (gunzipLoop (stuckGzip (GoError.other c)) pw fuel () t).1 = fuel ∧
      writes (gunzipLoop (stuckGzip (GoError.other c)) pw fuel () t).1 = [] := by
  intro fuel
  induction fuel with
  | zero => exact ⟨rfl, rfl, rfl⟩
  | succ k ih =>
    obtain ⟨h1, h2, h3⟩ := ih
    rw [gunzipLoop]
    simp only [stuckGzip, ne_eq, reduceCtorEq, not_false_eq_true, and_self, if_true]
    simp only [stuckGzip] at h1 h2 h3
    exact ⟨h1, by simp only [readAttempts, h2], by simp only [writes, h3]⟩

theorem untarEntryLoop_stuck {τ : Type} (pw : Downstream τ) (c : Nat) (t : τ) :
    ∀ fuel : Nat, (untarEntryLoop (stuckBodyTar (GoError.other c)) pw fuel () t).2 = none ∧
      readAttempts (untarEntryLoop (stuckBodyTar (GoError.other c)) pw fuel () t).1 = fuel := by
  intro fuel
  induction fuel with
  | zero => exact ⟨rfl, rfl⟩
  | succ k ih =>
    obtain ⟨h1, h2⟩ := ih
    rw [untarEntryLoop]
    simp only [stuckBodyTar, ne_eq, reduceCtorEq, not_false_eq_true, and_self, if_true]
    simp only [stuckBodyTar] at h1 h2
    exact ⟨h1, by simp only [readAttempts, h2]⟩

theorem untarLoop_stuck {τ : Type} (pw : Downstream τ) (c : Nat) (t : τ) :
    ∀ fuel : Nat, (untarLoop (stuckTar (GoError.other c)) pw fuel () t).2 = none ∧
      readAttempts (untarLoop (stuckTar (GoError.other c)) pw fuel () t).1 = fuel := by
  intro fuel
  induction fuel with
  | zero => exact ⟨rfl, rfl⟩
  | succ k ih =>
    obtain ⟨h1, h2⟩ := ih
    rw [untarLoop]
    simp only [stuckTar, ne_eq, reduceCtorEq, not_false_eq_true, if_false, if_true]
    simp only [stuckTar] at h1 h2
    exact ⟨h1, by simp only [readAttempts, h2]⟩

/-- C7 (failing input): a decoder that answers every call with the same
non-EOF error. However many iterations are allowed, neither procedure has
returned within them, and each has made one more read attempt per iteration:
Gunzip on a failing `gr.Read`, Untar on a failing `tr.Next`, and Untar on a
failing `tr.Read`. -/
theorem decode_loops_retry_forever (fuel c : Nat) :
    ((gunzipProc (stuckGzip (GoError.other c)) acceptAll fuel (Except.ok ()) ()).returned = false ∧
      readAttempts (gunzipProc (stuckGzip (GoError.other c)) acceptAll fuel
        (Except.ok ()) ()).trace = fuel) ∧
    ((untarProc (stuckTar (GoError.other c)) acceptAll fuel () ()).returned = false ∧
      readAttempts (untarProc (stuckTar (GoError.other c)) acceptAll fuel () ()).trace = fuel) ∧
    ((untarProc (stuckBodyTar (GoError.other c)) acceptAll fuel () ()).returned = false ∧
      readAttempts (untarProc (stuckBodyTar (GoError.other c)) acceptAll fuel () ()).trace
        = fuel) := by
  refine ⟨?_, ?_, ?_⟩
  · obtain ⟨h1, h2, _⟩ := gunzipLoop_stuck acceptAll c () fuel
    have hpair : gunzipLoop (stuckGzip (GoError.other c)) acceptAll fuel () ()
        = ((gunzipLoop (stuckGzip (GoError.other c)) acceptAll fuel () ()).1, none) := by
      rw [← h1]
    rw [gunzipProc, hpair]
    exact ⟨rfl, h2⟩
  · obtain ⟨h1, h2⟩ := untarLoop_stuck acceptAll c () fuel
    have hpair : untarLoop (stuckTar (GoError.other c)) acceptAll fuel () ()
        = ((untarLoop (stuckTar (GoError.other c)) acceptAll fuel () ()).1, none) := by
      rw [← h1]
    rw [untarProc, hpair]
    exact ⟨rfl, h2⟩
  · cases fuel with
    | zero => exact ⟨rfl, rfl⟩
    | succ k =>
      obtain ⟨h1, h2⟩ := untarEntryLoop_stuck acceptAll c () k
      have hpair : untarEntryLoop (stuckBodyTar (GoError.other c)) acceptAll k () ()
          = ((untarEntryLoop (stuckBodyTar (GoError.other c)) acceptAll k () ()).1, none) := by
        rw [← h1]
      have hnext : (stuckBodyTar (GoError.other c)).Next () = (none, ()) := rfl
      rw [untarProc, untarLoop]
      simp only [hnext]
      rw [hpair]
      simp only [reduceCtorEq, if_false, ne_eq, not_true_eq_false, readAttempts, h2]
      exact ⟨trivial, trivial⟩

/-! ## The containerd reader -/

theorem readOffsets_const (c : containerdReader) (sizes : List Nat) :
    readOffsets c sizes = List.replicate sizes.length c.offset := by
  induction sizes with
  | nil => rfl
  | cons size rest ih =>
    simp only [readOffsets, containerdReader.Read, List.length_cons, List.replicate_succ]
    rw [ih]

/-- C10 (failing input): the reader returned by `Fetch` never advances. Every
`Read` passes the offset the reader was created with to `ReadAt`; on the blob
10,20,30,40 two reads of two bytes both return 10,20, although the body of
`Read` computes the offset 2 after the first read. -/
theorem containerdReader_rereads_from_start :
    (∀ (c : containerdReader) (sizes : List Nat),
      readOffsets c sizes = List.replicate sizes.length c.offset) ∧
    (∃ c, containerdFetcher.Fetch (fun _ => Except.ok (blobReadAt [10, 20, 30, 40])) layerDesc = Except.ok c ∧
      c.offset = 0 ∧
      (c.ReadBody [0, 0]).2.offset = 2 ∧
      readOffsets c [2, 2] = [0, 0] ∧
      readSeq c [2, 2] = [[10, 20], [10, 20]]) :=
  ⟨readOffsets_const,
   ⟨{ reader := blobReadAt [10, 20, 30, 40], offset := 0 }, rfl, rfl, by decide, by decide,
     by decide⟩⟩

end EdgeContainers
